import Mathlib

/-!
Verification of the engine-analysis core of `chessAnalyr` (package
`gameengine`, file containing `StockfishAnalyser`).

The embedding models, faithfully to the Go source:
  * `readUntil` (blocking line reader accumulating a transcript until a
    line contains a marker; EOF is an error and discards the accumulator);
  * the regular expression scan `score cp (-?\d+)` performed with
    `FindStringSubmatch` (leftmost match, greedy digit run);
  * `sendCommand` (a write that may fail; `AnalyseGame` discards its result);
  * the per-ply body of `AnalyseGame` (here factored as `evaluatePosition`:
    send "position fen", send "go movetime 500", read until "bestmove",
    extract the score or default to 0);
  * the `AnalyseGame` loop building one `MoveAnalysis` per ply and aborting
    with an error (discarding partial results) on a read failure or an
    illegal move;
  * the action traces of `NewStockfishAnalyser` and `Close` (process start,
    commands, waits and closes), for resource-release questions.

The board-replay library (`github.com/notnil/chess`) is an external
collaborator; it is modelled from the spec as an abstract `Replay`
structure (initial state, position encoding, move rendering, fallible
move application, side to move).
-/

namespace ChessAnalyr

/-- Decidable equality for `Except`, needed to evaluate results of the
embedded functions on concrete inputs. -/
instance instDecEqExcept {ε α : Type} [DecidableEq ε] [DecidableEq α] :
    DecidableEq (Except ε α) := fun a b =>
  match a, b with
  | .error e, .error e' =>
    if h : e = e' then .isTrue (by rw [h]) else .isFalse (by simp [h])
  | .error _, .ok _ => .isFalse (by simp)
  | .ok _, .error _ => .isFalse (by simp)
  | .ok v, .ok v' =>
    if h : v = v' then .isTrue (by rw [h]) else .isFalse (by simp [h])

/-! ### Score extraction: the Go regexp `score cp (-?\d+)` -/

/-- Value of the maximal leading digit run of `cs`, `none` when `cs` does not
start with a digit.  This is the greedy `\d+` of the Go regular expression. -/
def readDigits (cs : List Char) : Option Nat :=
  let ds := cs.takeWhile Char.isDigit
  if ds.isEmpty then none
  else some (ds.foldl (fun a c => a * 10 + (c.toNat - 48)) 0)

/-- The literal part of the score pattern in the Stockfish output. -/
def scoreMarker : List Char := "score cp ".toList

/-- Try to match `score cp (-?\d+)` at the very start of `cs`; on success
return the captured signed centipawn value. -/
def matchScoreAt (cs : List Char) : Option Int :=
  if scoreMarker.isPrefixOf cs then
    match cs.drop scoreMarker.length with
    | '-' :: ds => (readDigits ds).map (fun n => -(n : Int))
    | rest => (readDigits rest).map (fun n => (n : Int))
  else none

/-- The Go `scoreRegex.FindStringSubmatch`: scan left to right and return
the value of the leftmost match of `score cp (-?\d+)`. -/
def findScore : List Char → Option Int
  | [] => none
  | c :: cs =>
    match matchScoreAt (c :: cs) with
    | some v => some v
    | none => findScore cs

/-- Modelled from the spec: the value at the *last* occurrence of the score
pattern in a transcript (the spec's "scans the transcript for the last
occurrence of a score pattern").  Used to compare the spec's reading with
the source's leftmost scan. -/
def findScoreLast : List Char → Option Int
  | [] => none
  | c :: cs =>
    match findScoreLast cs with
    | some v => some v
    | none => matchScoreAt (c :: cs)

/-! ### Line reading: `strings.Contains` and `readUntil` -/

/-- `containsSub pat s`: does `s` contain `pat` as a contiguous substring?
This is Go's `strings.Contains(s, pat)`. -/
def containsSub (pat : List Char) : List Char → Bool
  | [] => pat.isPrefixOf ([] : List Char)
  | c :: rest => pat.isPrefixOf (c :: rest) || containsSub pat rest

/-- A line of engine output contains the marker text. -/
def lineContains (line marker : String) : Bool :=
  containsSub marker.toList line.toList

/-- The Go `readUntil`: read newline-terminated lines from the engine's
stdout (modelled as the list of remaining lines, each without its trailing
newline), accumulating them into a transcript, until a line containing
`marker` is found; that line is included in the transcript.  End of stream
before the marker is an error, and the accumulated text is discarded (the
Go code returns `""` with the error). -/
def readUntilLines (marker : String) : List String → Except String (String × List String)
  | [] => .error "EOF"
  | l :: rest =>
    if lineContains l marker then .ok (l ++ "\n", rest)
    else
      match readUntilLines marker rest with
      | .error e => .error e
      | .ok (out, rem) => .ok (l ++ "\n" ++ out, rem)

/-! ### The engine channel and `sendCommand` -/

/-- State of the duplex channel to the engine process: the lines still
readable from its stdout, the trace of commands written to its stdin, and
whether writes fail. -/
structure EngineState where
  pending : List String
  sent : List String
  writeErr : Bool
deriving DecidableEq

/-- The Go `sendCommand`: write one command line to the engine's stdin.
The command is recorded in the trace; the returned `Except` reports the
write error when the channel's writes fail. -/
def sendCommand (es : EngineState) (cmd : String) : Except String Unit × EngineState :=
  ((if es.writeErr then .error "write error" else .ok ()),
   ⟨es.pending, es.sent ++ [cmd], es.writeErr⟩)

/-- The per-ply engine interaction inside `AnalyseGame` (the spec's
`evaluatePosition`): send the position-set command and the search command
(both write results are discarded, as in the source), read until a line
containing "bestmove", and extract the leftmost `score cp` value from the
transcript, defaulting to 0 when none is present.  A read failure aborts
with the wrapped error. -/
def evaluatePosition (es : EngineState) (fen : String) : Except String Int × EngineState :=
  let es1 := (sendCommand es ("position fen " ++ fen)).2
  let es2 := (sendCommand es1 "go movetime 500").2
  match readUntilLines "bestmove" es2.pending with
  | .error e => (.error ("error reading from stockfish: " ++ e), ⟨[], es2.sent, es2.writeErr⟩)
  | .ok (output, rest) =>
    (.ok ((findScore output.toList).getD 0), ⟨rest, es2.sent, es2.writeErr⟩)

/-! ### The result record `MoveAnalysis` -/

/-- The Go struct `MoveAnalysis`: move number, the move's textual form, the
evaluation in pawns (the Go `float64` is modelled as an exact rational:
every value the code produces is `cp / 100` with `cp` a machine integer,
exactly representable in the relevant range), and the formatted text. -/
structure MoveAnalysis where
  MoveNumber : Nat
  Move : String
  Evaluation : ℚ
  EvaluationText : String
deriving DecidableEq

/-- Two-digit rendering of a remainder below 100. -/
def pad2 (n : Nat) : String :=
  if n < 10 then "0" ++ toString n else toString n

/-- The Go `fmt.Sprintf("%+.2f", float64(cp)/100.0)`: a mandatory sign
followed by the integer pawn part and exactly two decimals.  For every
centipawn value in the engine's range the double `float64(cp)/100.0`
rounds back to exactly these two decimals. -/
def fmtSigned2 (cp : Int) : String :=
  (if cp < 0 then "-" else "+") ++ toString (cp.natAbs / 100) ++ "." ++ pad2 (cp.natAbs % 100)

/-! ### The board replay provider (external library, modelled from the spec) -/

/-- Side to move of a position. -/
inductive Side
  | white
  | black
deriving DecidableEq

/-- The other side. -/
def flipSide : Side → Side
  | .white => .black
  | .black => .white

/-- Modelled from the spec: the Board Replay Provider (the external
`github.com/notnil/chess` library, out of scope of the source): an initial
replay state, the position encoding (`FEN`) of a state, the textual form of
a move (`move.String()`), fallible move application (`game.Move`, which
rejects a move illegal in the current state), and the side to move of a
state (each successfully applied ply hands the move to the other side). -/
structure Replay (σ M : Type) where
  init : σ
  fen : σ → String
  moveStr : M → String
  applyMove : σ → M → Except String σ
  turn : σ → Side

/-- The replay state reached after successfully applying the first `k`
moves of `ms` starting from `st`; `none` when a move is illegal there or
`k` exceeds the list. -/
def stateAtFrom (R : Replay σ M) : σ → List M → Nat → Option σ
  | st, _, 0 => some st
  | _, [], _ + 1 => none
  | st, m :: ms, k + 1 =>
    match R.applyMove st m with
    | .ok st' => stateAtFrom R st' ms k
    | .error _ => none

/-- The replay state before ply `k`, from the initial position. -/
def stateAt (R : Replay σ M) (ms : List M) (k : Nat) : Option σ :=
  stateAtFrom R R.init ms k

/-- The engine-output lines remaining after `k` complete search transcripts
(each delimited by a line containing "bestmove"); `none` when the stream
ends first. -/
def remainderAfter : List String → Nat → Option (List String)
  | p, 0 => some p
  | p, k + 1 =>
    match readUntilLines "bestmove" p with
    | .ok (_, rest) => remainderAfter rest k
    | .error _ => none

/-! ### `AnalyseGame` -/

/-- The loop body of the Go `AnalyseGame`, with `i` the 0-based ply index:
for each move, evaluate the position before it, build the `MoveAnalysis`
record (`MoveNumber = i/2 + 1`, the move's text, `cp/100` pawns and the
formatted text), then apply the move to the replay state; a read failure or
an illegal move aborts the whole loop with an error, discarding every
record built so far (the Go code returns `nil, err`). -/
def analyseLoop (R : Replay σ M) : σ → Nat → List M → EngineState →
    Except String (List MoveAnalysis) × EngineState
  | _, _, [], es => (.ok [], es)
  | st, i, m :: ms, es =>
    let ev := evaluatePosition es (R.fen st)
    match ev.1 with
    | .error e => (.error e, ev.2)
    | .ok cp =>
      let ma : MoveAnalysis := ⟨i / 2 + 1, R.moveStr m, (cp : ℚ) / 100, fmtSigned2 cp⟩
      match R.applyMove st m with
      | .error e => (.error ("invalid move found in PGN: " ++ e), ev.2)
      | .ok st' =>
        let r := analyseLoop R st' (i + 1) ms ev.2
        match r.1 with
        | .ok l => (.ok (ma :: l), r.2)
        | .error e => (.error e, r.2)

/-- The Go `AnalyseGame`, after the external PGN parse has produced the
move list: run the analysis loop from the initial replay state at ply
index 0. -/
def analyseGame (R : Replay σ M) (moves : List M) (es : EngineState) :
    Except String (List MoveAnalysis) × EngineState :=
  analyseLoop R R.init 0 moves es

/-! ### `NewStockfishAnalyser` and `Close` (process lifecycle) -/

/-- Observable actions on the engine process and its pipes during setup and
teardown. -/
inductive InitAction
  | start
  | send (cmd : String)
  | kill
  | wait
  | closeStdin
  | closeStdout
deriving DecidableEq

/-- Does an action release the process or one of its pipe endpoints? -/
def isRelease : InitAction → Bool
  | .kill => true
  | .wait => true
  | .closeStdin => true
  | .closeStdout => true
  | _ => false

/-- Script of the environment's behaviour during `NewStockfishAnalyser`:
whether the two pipes can be opened, whether the process starts, whether
writes to it fail, and the lines it produces on stdout. -/
structure InitScript where
  stdinPipeOk : Bool
  stdoutPipeOk : Bool
  startOk : Bool
  writeErr : Bool
  lines : List String
deriving DecidableEq

/-- The Go `NewStockfishAnalyser`: open the stdin pipe, open the stdout
pipe, start the process, send "uci" and wait for "uciok", send "isready"
and wait for "readyok"; every failure returns the error immediately.  The
second component is the trace of process/pipe actions performed: the source
performs no kill, wait or close on any path of this function. -/
def newStockfishAnalyser (sc : InitScript) : Except String EngineState × List InitAction :=
  if sc.stdinPipeOk then
    if sc.stdoutPipeOk then
      if sc.startOk then
        if sc.writeErr then (.error "write error", [.start, .send "uci"])
        else
          match readUntilLines "uciok" sc.lines with
          | .error e => (.error e, [.start, .send "uci"])
          | .ok (_, rest) =>
            if sc.writeErr then (.error "write error", [.start, .send "uci", .send "isready"])
            else
              match readUntilLines "readyok" rest with
              | .error e => (.error e, [.start, .send "uci", .send "isready"])
              | .ok (_, rest2) =>
                (.ok ⟨rest2, ["uci", "isready"], sc.writeErr⟩,
                 [.start, .send "uci", .send "isready"])
      else (.error "failed to start stockfish", [])
    else (.error "stdout pipe error", [])
  else (.error "stdin pipe error", [])

/-- The Go `Close`: send "quit" (ignoring the write result), wait for the
process, close stdin, close stdout. -/
def closeActions : List InitAction :=
  [.send "quit", .wait, .closeStdin, .closeStdout]

/-! ### Concrete instances used to evaluate the model -/

/-- A concrete instance of the replay provider: states are the list of
moves applied so far, moves are their own textual form, the move "illegal"
is rejected, and the side to move alternates starting from White. -/
def demoReplay : Replay (List String) String :=
  ⟨[],
   fun s => "fen" ++ toString s.length,
   fun m => m,
   fun s m => if m = "illegal" then .error "illegal move" else .ok (s ++ [m]),
   fun s => if s.length % 2 = 0 then .white else .black⟩

/-- Engine stdout delivering one completed search with no score line. -/
def esA : EngineState := ⟨["bestmove e2e4"], [], false⟩

/-- Engine stdout delivering two completed searches with no score lines. -/
def esB : EngineState := ⟨["bestmove e2e4", "bestmove e2e4"], [], false⟩

/-- Engine stdout whose single search transcript reports two scores, 10
then 20, before the completion marker. -/
def esC1 : EngineState := ⟨["info score cp 10", "info score cp 20", "bestmove e2e4"], [], false⟩

/-- The transcript accumulated by `readUntil` on `esC1`. -/
def transcriptC1 : String := "info score cp 10\ninfo score cp 20\nbestmove e2e4\n"

/-- A channel whose writes fail but whose reads deliver one completed
search. -/
def esW : EngineState := ⟨["bestmove e2e4"], [], true⟩

/-- A setup script where the process starts but its stdout closes before
"uciok" arrives. -/
def scFail : InitScript := ⟨true, true, true, false, []⟩

/-! ### Equation lemmas for the embedded operations -/

theorem evalPos_of_err (es : EngineState) (fen e : String)
    (h : readUntilLines "bestmove" es.pending = .error e) :
    evaluatePosition es fen =
      (.error ("error reading from stockfish: " ++ e),
       ⟨[], es.sent ++ ["position fen " ++ fen, "go movetime 500"], es.writeErr⟩) := by
  simp only [evaluatePosition, sendCommand, h, List.append_assoc, List.cons_append,
    List.nil_append]

theorem evalPos_of_ok (es : EngineState) (fen out : String) (rest : List String)
    (h : readUntilLines "bestmove" es.pending = .ok (out, rest)) :
    evaluatePosition es fen =
      (.ok ((findScore out.toList).getD 0),
       ⟨rest, es.sent ++ ["position fen " ++ fen, "go movetime 500"], es.writeErr⟩) := by
  simp only [evaluatePosition, sendCommand, h, List.append_assoc, List.cons_append,
    List.nil_append]

theorem loop_cons_eq (R : Replay σ M) (st : σ) (i : Nat) (m : M) (ms : List M)
    (es : EngineState) :
    analyseLoop R st i (m :: ms) es =
      match (evaluatePosition es (R.fen st)).1 with
      | .error e => (.error e, (evaluatePosition es (R.fen st)).2)
      | .ok cp =>
        match R.applyMove st m with
        | .error e =>
          (.error ("invalid move found in PGN: " ++ e), (evaluatePosition es (R.fen st)).2)
        | .ok st' =>
          match (analyseLoop R st' (i + 1) ms (evaluatePosition es (R.fen st)).2).1 with
          | .ok l =>
            (.ok ((⟨i / 2 + 1, R.moveStr m, (cp : ℚ) / 100, fmtSigned2 cp⟩ : MoveAnalysis) :: l),
             (analyseLoop R st' (i + 1) ms (evaluatePosition es (R.fen st)).2).2)
          | .error e => (.error e, (analyseLoop R st' (i + 1) ms (evaluatePosition es (R.fen st)).2).2)
      := rfl

theorem flipSide_flipSide (x : Side) : flipSide (flipSide x) = x := by
  cases x <;> rfl

theorem matchScoreAt_nil : matchScoreAt [] = none := by decide

theorem findScore_first (cs : List Char) (i : Nat) (v : Int)
    (hbefore : ∀ j, j < i → matchScoreAt (cs.drop j) = none)
    (hat : matchScoreAt (cs.drop i) = some v) : findScore cs = some v := by
  induction cs generalizing i with
  | nil =>
    rw [List.drop_nil, matchScoreAt_nil] at hat
    cases hat
  | cons c cs ih =>
    cases i with
    | zero =>
      rw [List.drop_zero] at hat
      simp only [findScore, hat]
    | succ i' =>
      have h0 : matchScoreAt (c :: cs) = none := by
        have h := hbefore 0 (Nat.succ_pos i')
        rwa [List.drop_zero] at h
      simp only [findScore, h0]
      apply ih i'
      · intro j hj
        have h := hbefore (j + 1) (by omega)
        rwa [List.drop_succ_cons] at h
      · rwa [List.drop_succ_cons] at hat

theorem turn_stateAtFrom (R : Replay σ M)
    (hflip : ∀ s m s', R.applyMove s m = .ok s' → R.turn s' = flipSide (R.turn s))
    (ms : List M) (st : σ) (k : Nat) (s : σ) (h : stateAtFrom R st ms k = some s) :
    R.turn s = (if k % 2 = 0 then R.turn st else flipSide (R.turn st)) := by
  induction ms generalizing st k with
  | nil =>
    cases k with
    | zero =>
      simp only [stateAtFrom, Option.some.injEq] at h
      subst h; simp
    | succ k' => simp [stateAtFrom] at h
  | cons m ms ih =>
    cases k with
    | zero =>
      simp only [stateAtFrom, Option.some.injEq] at h
      subst h; simp
    | succ k' =>
      cases happ : R.applyMove st m with
      | error e =>
        simp only [stateAtFrom, happ] at h
        cases h
      | ok st' =>
        simp only [stateAtFrom, happ] at h
        have ht := ih st' k' h
        have hf := hflip st m st' happ
        rw [ht, hf]
        by_cases hk : k' % 2 = 0
        · have hk1 : ¬(k' + 1) % 2 = 0 := by omega
          simp [hk, hk1]
        · have hk1 : (k' + 1) % 2 = 0 := by omega
          simp [hk, hk1, flipSide_flipSide]

theorem loop_ok_of (R : Replay σ M) (ms : List M) (st : σ) (i : Nat) (es : EngineState)
    (hst : (stateAtFrom R st ms ms.length).isSome)
    (hrd : (remainderAfter es.pending ms.length).isSome) :
    ∃ l, (analyseLoop R st i ms es).1 = .ok l ∧
      l.length = ms.length ∧
      l.map (fun a => a.Move) = ms.map R.moveStr ∧
      l.map (fun a => a.MoveNumber) = (List.range ms.length).map (fun j => (i + j) / 2 + 1) := by
  induction ms generalizing st i es with
  | nil => exact ⟨[], rfl, rfl, rfl, rfl⟩
  | cons m ms ih =>
    rw [List.length_cons] at hst hrd
    cases hread : readUntilLines "bestmove" es.pending with
    | error e =>
      rw [remainderAfter, hread] at hrd
      simp at hrd
    | ok pr =>
      obtain ⟨out, rest⟩ := pr
      cases happ : R.applyMove st m with
      | error e =>
        rw [stateAtFrom, happ] at hst
        simp at hst
      | ok st' =>
        rw [stateAtFrom, happ] at hst
        rw [remainderAfter, hread] at hrd
        obtain ⟨l, hl, hlen, hmvs, hnums⟩ :=
          ih st' (i + 1)
            ⟨rest, es.sent ++ ["position fen " ++ R.fen st, "go movetime 500"], es.writeErr⟩
            hst hrd
        refine ⟨⟨i / 2 + 1, R.moveStr m,
            (((findScore out.toList).getD 0 : Int) : ℚ) / 100,
            fmtSigned2 ((findScore out.toList).getD 0)⟩ :: l, ?_, ?_, ?_, ?_⟩
        · rw [loop_cons_eq, evalPos_of_ok es (R.fen st) out rest hread]
          dsimp only
          rw [happ]
          dsimp only
          rw [hl]
        · simp [hlen]
        · simp only [List.map_cons, hmvs]
        · have harith : ∀ a ∈ List.range ms.length,
              ((fun j => (i + j) / 2 + 1) ∘ Nat.succ) a = (fun j => (i + 1 + j) / 2 + 1) a := by
            intro a _
            simp only [Function.comp]
            omega
          simp only [List.map_cons, hnums, List.length_cons, List.range_succ_eq_map,
            List.map_map]
          rw [← List.map_congr_left harith]
          simp

theorem loop_ok_imp (R : Replay σ M) (ms : List M) (st : σ) (i : Nat) (es : EngineState)
    (l : List MoveAnalysis) (h : (analyseLoop R st i ms es).1 = .ok l) :
    ∀ j (hj : j < ms.length),
      (∃ s s', stateAtFrom R st ms j = some s ∧ R.applyMove s (ms.get ⟨j, hj⟩) = .ok s') ∧
      (∃ p out rest, remainderAfter es.pending j = some p ∧
        readUntilLines "bestmove" p = .ok (out, rest)) := by
  induction ms generalizing st i es l with
  | nil =>
    intro j hj
    simp at hj
  | cons m ms ih =>
    intro j hj
    rw [loop_cons_eq] at h
    cases hread : readUntilLines "bestmove" es.pending with
    | error e =>
      rw [evalPos_of_err es (R.fen st) e hread] at h
      exact absurd h (by simp)
    | ok pr =>
      obtain ⟨out, rest⟩ := pr
      rw [evalPos_of_ok es (R.fen st) out rest hread] at h
      dsimp only at h
      cases happ : R.applyMove st m with
      | error e =>
        rw [happ] at h
        exact absurd h (by simp)
      | ok st' =>
        rw [happ] at h
        dsimp only at h
        cases hrec : (analyseLoop R st' (i + 1) ms
            ⟨rest, es.sent ++ ["position fen " ++ R.fen st, "go movetime 500"],
             es.writeErr⟩).1 with
        | error e =>
          rw [hrec] at h
          exact absurd h (by simp)
        | ok l' =>
          cases j with
          | zero =>
            refine ⟨⟨st, st', rfl, happ⟩, ⟨es.pending, out, rest, rfl, hread⟩⟩
          | succ j' =>
            have hj' : j' < ms.length := by simpa using hj
            obtain ⟨⟨s, s', hs, happ'⟩, ⟨p, out', rest', hp, hr⟩⟩ :=
              ih st' (i + 1) _ l' hrec j' hj'
            constructor
            · refine ⟨s, s', ?_, happ'⟩
              rw [stateAtFrom, happ]
              exact hs
            · refine ⟨p, out', rest', ?_, hr⟩
              rw [remainderAfter, hread]
              exact hp

theorem loop_fields (R : Replay σ M) (ms : List M) (st : σ) (i : Nat) (es : EngineState)
    (l : List MoveAnalysis) (h : (analyseLoop R st i ms es).1 = .ok l) :
    ∀ a ∈ l, ∃ cp : Int, a.Evaluation = (cp : ℚ) / 100 ∧ a.EvaluationText = fmtSigned2 cp := by
  induction ms generalizing st i es l with
  | nil =>
    intro a ha
    have hnil : l = [] := by
      have h' : (Except.ok [] : Except String (List MoveAnalysis)) = .ok l := h
      simpa using h'.symm
    rw [hnil] at ha
    simp at ha
  | cons m ms ih =>
    intro a ha
    rw [loop_cons_eq] at h
    cases hread : readUntilLines "bestmove" es.pending with
    | error e =>
      rw [evalPos_of_err es (R.fen st) e hread] at h
      exact absurd h (by simp)
    | ok pr =>
      obtain ⟨out, rest⟩ := pr
      rw [evalPos_of_ok es (R.fen st) out rest hread] at h
      dsimp only at h
      cases happ : R.applyMove st m with
      | error e =>
        rw [happ] at h
        exact absurd h (by simp)
      | ok st' =>
        rw [happ] at h
        dsimp only at h
        cases hrec : (analyseLoop R st' (i + 1) ms
            ⟨rest, es.sent ++ ["position fen " ++ R.fen st, "go movetime 500"],
             es.writeErr⟩).1 with
        | error e =>
          rw [hrec] at h
          exact absurd h (by simp)
        | ok l' =>
          rw [hrec] at h
          have hl : l = ⟨i / 2 + 1, R.moveStr m,
              (((findScore out.toList).getD 0 : Int) : ℚ) / 100,
              fmtSigned2 ((findScore out.toList).getD 0)⟩ :: l' := by
            simpa using h.symm
          rw [hl] at ha
          rcases List.mem_cons.1 ha with hh | hh
          · exact ⟨(findScore out.toList).getD 0, by rw [hh], by rw [hh]⟩
          · exact ih st' (i + 1) _ l' hrec a hh

theorem loop_sent_mem (R : Replay σ M) (ms : List M) (st : σ) (i : Nat) (es : EngineState)
    (c : String) (hc : c ∈ (analyseLoop R st i ms es).2.sent) :
    c ∈ es.sent ∨ (∃ f, c = "position fen " ++ f) ∨ c = "go movetime 500" := by
  induction ms generalizing st i es with
  | nil => exact .inl hc
  | cons m ms ih =>
    rw [loop_cons_eq] at hc
    cases hread : readUntilLines "bestmove" es.pending with
    | error e =>
      rw [evalPos_of_err es (R.fen st) e hread] at hc
      dsimp only at hc
      rcases List.mem_append.1 hc with h | h
      · exact .inl h
      · rcases List.mem_cons.1 h with h1 | h1
        · exact .inr (.inl ⟨R.fen st, h1⟩)
        · exact .inr (.inr (by simpa using h1))
    | ok pr =>
      obtain ⟨out, rest⟩ := pr
      rw [evalPos_of_ok es (R.fen st) out rest hread] at hc
      dsimp only at hc
      cases happ : R.applyMove st m with
      | error e =>
        rw [happ] at hc
        dsimp only at hc
        rcases List.mem_append.1 hc with h | h
        · exact .inl h
        · rcases List.mem_cons.1 h with h1 | h1
          · exact .inr (.inl ⟨R.fen st, h1⟩)
          · exact .inr (.inr (by simpa using h1))
      | ok st' =>
        rw [happ] at hc
        dsimp only at hc
        have hmem : c ∈ (analyseLoop R st' (i + 1) ms
            ⟨rest, es.sent ++ ["position fen " ++ R.fen st, "go movetime 500"],
             es.writeErr⟩).2.sent := by
          cases hrec : (analyseLoop R st' (i + 1) ms
              ⟨rest, es.sent ++ ["position fen " ++ R.fen st, "go movetime 500"],
               es.writeErr⟩).1 with
          | error e =>
            rw [hrec] at hc
            exact hc
          | ok l' =>
            rw [hrec] at hc
            exact hc
        rcases ih st' (i + 1) _ hmem with h | h
        · rcases List.mem_append.1 h with h1 | h1
          · exact .inl h1
          · rcases List.mem_cons.1 h1 with h2 | h2
            · exact .inr (.inl ⟨R.fen st, h2⟩)
            · exact .inr (.inr (by simpa using h2))
        · exact .inr h

theorem loop_writes_ignored (R : Replay σ M) (ms : List M) (st : σ) (i : Nat)
    (p : List String) (s₁ s₂ : List String) (b₁ b₂ : Bool) :
    (analyseLoop R st i ms ⟨p, s₁, b₁⟩).1 = (analyseLoop R st i ms ⟨p, s₂, b₂⟩).1 ∧
    (analyseLoop R st i ms ⟨p, s₁, b₁⟩).2.pending =
      (analyseLoop R st i ms ⟨p, s₂, b₂⟩).2.pending := by
  induction ms generalizing st i p s₁ s₂ b₁ b₂ with
  | nil => exact ⟨rfl, rfl⟩
  | cons m ms ih =>
    rw [loop_cons_eq, loop_cons_eq]
    cases hread : readUntilLines "bestmove" p with
    | error e =>
      rw [evalPos_of_err ⟨p, s₁, b₁⟩ (R.fen st) e hread,
        evalPos_of_err ⟨p, s₂, b₂⟩ (R.fen st) e hread]
      exact ⟨rfl, rfl⟩
    | ok pr =>
      obtain ⟨out, rest⟩ := pr
      rw [evalPos_of_ok ⟨p, s₁, b₁⟩ (R.fen st) out rest hread,
        evalPos_of_ok ⟨p, s₂, b₂⟩ (R.fen st) out rest hread]
      dsimp only
      cases happ : R.applyMove st m with
      | error e => exact ⟨rfl, rfl⟩
      | ok st' =>
        obtain ⟨h1, h2⟩ := ih st' (i + 1) rest
          (s₁ ++ ["position fen " ++ R.fen st, "go movetime 500"])
          (s₂ ++ ["position fen " ++ R.fen st, "go movetime 500"]) b₁ b₂
        dsimp only
        rw [h1]
        cases hrec : (analyseLoop R st' (i + 1) ms
            ⟨rest, s₂ ++ ["position fen " ++ R.fen st, "go movetime 500"], b₂⟩).1 with
        | error e => exact ⟨rfl, h2⟩
        | ok l' => exact ⟨rfl, h2⟩

/-! ## Additional concrete engine scripts -/

/-- Engine stdout delivering three completed searches. -/
def esC2 : EngineState :=
  ⟨["bestmove e2e4", "bestmove e2e4", "bestmove e2e4"], [], false⟩

/-- Side-to-move alternation holds for the concrete replay instance. -/
theorem demoReplay_flip (s : List String) (m : String) (s' : List String)
    (h : demoReplay.applyMove s m = .ok s') :
    demoReplay.turn s' = flipSide (demoReplay.turn s) := by
  by_cases hm : m = "illegal"
  · simp only [demoReplay, hm, if_pos] at h
    cases h
  · simp only [demoReplay, if_neg hm] at h
    injection h with h'
    subst h'
    simp only [demoReplay, List.length_append, List.length_cons, List.length_nil]
    by_cases hp : s.length % 2 = 0
    · have hp1 : ¬(s.length + 1) % 2 = 0 := by omega
      simp [hp, hp1, flipSide]
    · have hp1 : (s.length + 1) % 2 = 0 := by omega
      simp [hp, hp1, flipSide]

/-! ### Concrete runs of the model, computed once and shared -/

theorem runA : (analyseGame demoReplay ["m"] esA).1 = .ok [⟨1, "m", 0, "+0.00"⟩] := by
  have hread : readUntilLines "bestmove" esA.pending = .ok ("bestmove e2e4\n", []) := by decide
  have happ : demoReplay.applyMove demoReplay.init "m" = .ok ["m"] := by decide
  have hcp : (findScore ("bestmove e2e4\n").toList).getD 0 = 0 := by decide
  have htxt : fmtSigned2 (0 : Int) = "+0.00" := by decide
  simp only [analyseGame]
  rw [loop_cons_eq, evalPos_of_ok esA (demoReplay.fen demoReplay.init) ("bestmove e2e4\n") [] hread]
  dsimp only
  rw [happ]
  dsimp only [analyseLoop]
  rw [hcp, htxt]
  norm_num
  decide

theorem runB : (analyseGame demoReplay ["x", "m"] esB).1 =
    .ok [⟨1, "x", 0, "+0.00"⟩, ⟨1, "m", 0, "+0.00"⟩] := by
  have hread1 : readUntilLines "bestmove" esB.pending =
      .ok ("bestmove e2e4\n", ["bestmove e2e4"]) := by decide
  have happ1 : demoReplay.applyMove demoReplay.init "x" = .ok ["x"] := by decide
  have hcp : (findScore ("bestmove e2e4\n").toList).getD 0 = 0 := by decide
  have htxt : fmtSigned2 (0 : Int) = "+0.00" := by decide
  simp only [analyseGame]
  rw [loop_cons_eq,
    evalPos_of_ok esB (demoReplay.fen demoReplay.init) ("bestmove e2e4\n")
      ["bestmove e2e4"] hread1]
  dsimp only
  rw [happ1]
  dsimp only
  rw [loop_cons_eq,
    evalPos_of_ok
      ⟨["bestmove e2e4"],
       esB.sent ++ ["position fen " ++ demoReplay.fen demoReplay.init, "go movetime 500"],
       esB.writeErr⟩
      (demoReplay.fen ["x"]) ("bestmove e2e4\n") [] (by decide)]
  dsimp only
  rw [show demoReplay.applyMove ["x"] "m" = .ok ["x", "m"] from by decide]
  dsimp only [analyseLoop]
  rw [hcp, htxt]
  norm_num
  decide

theorem runC1 : (analyseGame demoReplay ["m"] esC1).1 =
    .ok [⟨1, "m", (10 : ℚ) / 100, "+0.10"⟩] := by
  have hread : readUntilLines "bestmove" esC1.pending =
      .ok ("info score cp 10\ninfo score cp 20\nbestmove e2e4\n", []) := by decide
  have happ : demoReplay.applyMove demoReplay.init "m" = .ok ["m"] := by decide
  have hcp : (findScore ("info score cp 10\ninfo score cp 20\nbestmove e2e4\n").toList).getD 0
      = 10 := by decide
  have htxt : fmtSigned2 (10 : Int) = "+0.10" := by decide
  simp only [analyseGame]
  rw [loop_cons_eq,
    evalPos_of_ok esC1 (demoReplay.fen demoReplay.init)
      ("info score cp 10\ninfo score cp 20\nbestmove e2e4\n") [] hread]
  dsimp only
  rw [happ]
  dsimp only [analyseLoop]
  rw [hcp, htxt]
  norm_num
  decide

theorem runW : (analyseGame demoReplay ["m"] esW).1 = .ok [⟨1, "m", 0, "+0.00"⟩] := by
  have h := (loop_writes_ignored demoReplay ["m"] demoReplay.init 0
    ["bestmove e2e4"] [] [] true false).1
  have hA := runA
  simp only [analyseGame] at hA ⊢
  exact h.trans hA

/-! ## Claims -/

/-- C1, counterexample: a single search whose transcript reports
`score cp 10` and later `score cp 20` before the completion marker.  The
last occurrence of the score pattern carries 20, but the position's
evaluation uses 10: `FindStringSubmatch` returns the *leftmost* match, so
the claim that the last occurrence is used is false. -/
theorem c1_counterexample :
    readUntilLines "bestmove" esC1.pending = .ok (transcriptC1, []) ∧
    findScoreLast transcriptC1.toList = some 20 ∧
    findScore transcriptC1.toList = some 10 ∧
    (evaluatePosition esC1 "f").1 = .ok 10 ∧
    (analyseGame demoReplay ["m"] esC1).1 = .ok [⟨1, "m", (10 : ℚ) / 100, "+0.10"⟩] ∧
    (10 : Int) ≠ 20 :=
  ⟨by decide, by decide, by decide, by decide, runC1, by decide⟩

/-- C1, amended: the score used by `evaluatePosition` is the *first*
occurrence of the score pattern in the search transcript (the position `i`
such that the pattern matches at `i` and at no earlier position). -/
theorem c1_first_score_used (es : EngineState) (fen out : String)
    (rest : List String) (i : Nat) (v : Int)
    (hread : readUntilLines "bestmove" es.pending = .ok (out, rest))
    (hbefore : ∀ j, j < i → matchScoreAt (out.toList.drop j) = none)
    (hat : matchScoreAt (out.toList.drop i) = some v) :
    (evaluatePosition es fen).1 = .ok v := by
  rw [evalPos_of_ok es fen out rest hread]
  dsimp only
  rw [findScore_first out.toList i v hbefore hat]
  rfl

/-- C1 witness: on the two-score transcript the first occurrence (value 10,
at character position 5) is the score the evaluation returns. -/
theorem c1_witness :
    readUntilLines "bestmove" esC1.pending = .ok (transcriptC1, []) ∧
    (∀ j, j < 5 → matchScoreAt (transcriptC1.toList.drop j) = none) ∧
    matchScoreAt (transcriptC1.toList.drop 5) = some 10 ∧
    (evaluatePosition esC1 "f").1 = .ok 10 :=
  ⟨by decide, by decide, by decide,
   c1_first_score_used esC1 "f" transcriptC1 [] 5 10 (by decide) (by decide) (by decide)⟩

/-- C2: when every move of the game replays legally and the engine
delivers a completed search transcript for every ply, `AnalyseGame`
returns exactly one evaluation per ply, in move order, and the evaluation
at 0-based ply index `i` has `MoveNumber = i / 2 + 1`, yielding the
sequence 1,1,2,2,3,3,... -/
theorem c2_analyseGame_shape (σ M : Type) (R : Replay σ M) (ms : List M) (es : EngineState)
    (hlegal : (stateAt R ms ms.length).isSome)
    (hreads : (remainderAfter es.pending ms.length).isSome) :
    ∃ l, (analyseGame R ms es).1 = .ok l ∧
      l.length = ms.length ∧
      l.map (fun a => a.Move) = ms.map R.moveStr ∧
      l.map (fun a => a.MoveNumber) = (List.range ms.length).map (fun j => j / 2 + 1) := by
  obtain ⟨l, h1, h2, h3, h4⟩ := loop_ok_of R ms R.init 0 es hlegal hreads
  refine ⟨l, h1, h2, h3, ?_⟩
  rw [h4]
  apply List.map_congr_left
  intro a _
  simp

/-- C2 witness: a three-ply game on the concrete replay, with three
completed searches, yields three evaluations with move numbers 1,1,2. -/
theorem c2_witness :
    (stateAt demoReplay ["a", "b", "c"] 3).isSome = true ∧
    (remainderAfter esC2.pending 3).isSome = true ∧
    ∃ l, (analyseGame demoReplay ["a", "b", "c"] esC2).1 = .ok l ∧
      l.length = 3 ∧
      l.map (fun a => a.Move) = ["a", "b", "c"] ∧
      l.map (fun a => a.MoveNumber) = [1, 1, 2] := by
  refine ⟨by decide, by decide, ?_⟩
  obtain ⟨l, h1, h2, h3, h4⟩ :=
    c2_analyseGame_shape _ _ demoReplay ["a", "b", "c"] esC2 (by decide) (by decide)
  exact ⟨l, h1, h2, h3.trans (by decide), h4.trans (by decide)⟩

/-- C3, counterexample: the search command `AnalyseGame` sends carries the
fixed budget of 500 milliseconds; no caller-supplied thinking time exists
(`AnalyseGame` has no such parameter), so a caller wanting e.g. 1000 ms
still gets a `go movetime 500` command. -/
theorem c3_counterexample :
    (analyseGame demoReplay ["m"] esA).2.sent =
      ["position fen fen0", "go movetime 500"] ∧
    ("go movetime 500" : String) ≠ "go movetime 1000" :=
  ⟨by decide, by decide⟩

/-- C3, amended: every command `AnalyseGame` writes to the engine is
either a position-set command or the literal `go movetime 500`; the
thinking time is the hard-coded constant 500, passed through from no
caller argument. -/
theorem c3_fixed_movetime (σ M : Type) (R : Replay σ M) (ms : List M) (es : EngineState)
    (c : String) (hc : c ∈ (analyseGame R ms es).2.sent) :
    c ∈ es.sent ∨ (∃ f, c = "position fen " ++ f) ∨ c = "go movetime 500" :=
  loop_sent_mem R ms R.init 0 es c hc

/-- C3 witness: the search command of a concrete run is in the trace and
satisfies the fixed-budget disjunction. -/
theorem c3_witness :
    ("go movetime 500" ∈ (analyseGame demoReplay ["m"] esA).2.sent) ∧
    ("go movetime 500" ∈ esA.sent ∨ (∃ f, ("go movetime 500" : String) = "position fen " ++ f) ∨
      ("go movetime 500" : String) = "go movetime 500") :=
  ⟨by decide, c3_fixed_movetime _ _ demoReplay ["m"] esA "go movetime 500" (by decide)⟩

/-- C4: when the search completes (a "bestmove" line is read) but the
transcript contains no occurrence of the score pattern, the evaluation
does not fail; it returns the neutral score 0 centipawns. -/
theorem c4_no_score_neutral_zero (es : EngineState) (fen out : String) (rest : List String)
    (hread : readUntilLines "bestmove" es.pending = .ok (out, rest))
    (hnone : findScore out.toList = none) :
    (evaluatePosition es fen).1 = .ok 0 := by
  rw [evalPos_of_ok es fen out rest hread]
  dsimp only
  rw [hnone]
  rfl

/-- C4 witness: a transcript consisting only of the completion line has no
score pattern, and the evaluation is 0. -/
theorem c4_witness :
    readUntilLines "bestmove" esA.pending = .ok ("bestmove e2e4\n", []) ∧
    findScore ("bestmove e2e4\n".toList) = none ∧
    (evaluatePosition esA "fen0").1 = .ok 0 :=
  ⟨by decide, by decide,
   c4_no_score_neutral_zero esA "fen0" ("bestmove e2e4\n") [] (by decide) (by decide)⟩

/-- C5: if the game fails mid-analysis — ply `j` replays to a state in
which move `j` is illegal, or the engine channel is exhausted before the
`j`-th completion marker — `AnalyseGame` returns an error and no
evaluations at all: no partial list is returned. -/
theorem c5_error_discards_partials (σ M : Type) (R : Replay σ M) (ms : List M)
    (es : EngineState) (j : Nat) (hj : j < ms.length)
    (hfail :
      (∃ s msg, stateAt R ms j = some s ∧ R.applyMove s (ms.get ⟨j, hj⟩) = .error msg) ∨
      (∃ p msg, remainderAfter es.pending j = some p ∧
        readUntilLines "bestmove" p = .error msg)) :
    ∃ e, (analyseGame R ms es).1 = .error e ∧
      ∀ l, (analyseGame R ms es).1 ≠ .ok l := by
  cases hres : (analyseGame R ms es).1 with
  | error e =>
    refine ⟨e, rfl, ?_⟩
    intro l hl
    exact Except.noConfusion hl
  | ok l =>
    exfalso
    have hsp := loop_ok_imp R ms R.init 0 es l hres j hj
    rcases hfail with ⟨s, msg, hs, happ⟩ | ⟨p, msg, hp, hbad⟩
    · obtain ⟨⟨s', s'', hs', happ'⟩, _⟩ := hsp
      rw [stateAt] at hs
      rw [hs] at hs'
      have hss : s' = s := (Option.some.inj hs').symm
      rw [hss] at happ'
      exact Except.noConfusion (happ.symm.trans happ')
    · obtain ⟨_, ⟨p', out, rest, hp', hr⟩⟩ := hsp
      rw [hp] at hp'
      have hpp : p' = p := (Option.some.inj hp').symm
      rw [hpp] at hr
      exact Except.noConfusion (hbad.symm.trans hr)

/-- C5 witness: a two-ply game whose second move is illegal in context
errors out and returns no evaluations, although the first ply had already
been evaluated successfully. -/
theorem c5_witness :
    (1 < (["a", "illegal"] : List String).length) ∧
    (stateAt demoReplay ["a", "illegal"] 1 = some ["a"] ∧
      demoReplay.applyMove ["a"] "illegal" = .error "illegal move") ∧
    ∃ e, (analyseGame demoReplay ["a", "illegal"] esB).1 = .error e ∧
      ∀ l, (analyseGame demoReplay ["a", "illegal"] esB).1 ≠ .ok l :=
  ⟨by decide, ⟨by decide, by decide⟩,
   c5_error_discards_partials _ _ demoReplay ["a", "illegal"] esB 1 (by decide)
     (.inl ⟨["a"], "illegal move", by decide, by decide⟩)⟩

/-- C6, counterexample: the returned `MoveAnalysis` records carry no
side-to-move at all.  Two runs produce the *same* record value at an even
ply index (first run) and at an odd ply index (second run), so no function
of the record can recover the side-to-move parity the claim asserts the
evaluation carries. -/
theorem c6_counterexample :
    ¬ ∃ sideOf : MoveAnalysis → Side,
      (∀ l, (analyseGame demoReplay ["m"] esA).1 = .ok l →
        ∀ i (h : i < l.length), sideOf (l.get ⟨i, h⟩) =
          (if i % 2 = 0 then Side.white else Side.black)) ∧
      (∀ l, (analyseGame demoReplay ["x", "m"] esB).1 = .ok l →
        ∀ i (h : i < l.length), sideOf (l.get ⟨i, h⟩) =
          (if i % 2 = 0 then Side.white else Side.black)) := by
  rintro ⟨f, hA, hB⟩
  have h1 := hA _ runA 0 (by decide)
  have h2 := hB _ runB 1 (by decide)
  have h1' : f ⟨1, "m", 0, "+0.00"⟩ = Side.white := by simpa using h1
  have h2' : f ⟨1, "m", 0, "+0.00"⟩ = Side.black := by simpa using h2
  exact Side.noConfusion (h1'.symm.trans h2')

/-- C6, amended: the side to move is a property of the *position* analysed
at each ply, not a field of the returned record: when the replay provider
starts with White and alternates the turn on every applied move, the
position evaluated at 0-based ply index `i` of a successful analysis has
White to move exactly when `i` is even. -/
theorem c6_side_to_move_parity (σ M : Type) (R : Replay σ M) (ms : List M) (es : EngineState)
    (l : List MoveAnalysis) (i : Nat)
    (hinit : R.turn R.init = Side.white)
    (hflip : ∀ s m s', R.applyMove s m = .ok s' → R.turn s' = flipSide (R.turn s))
    (hok : (analyseGame R ms es).1 = .ok l) (hi : i < ms.length) :
    ∃ s, stateAt R ms i = some s ∧
      R.turn s = (if i % 2 = 0 then Side.white else Side.black) := by
  obtain ⟨⟨s, s', hs, _⟩, _⟩ := loop_ok_imp R ms R.init 0 es l hok i hi
  refine ⟨s, hs, ?_⟩
  have ht := turn_stateAtFrom R hflip ms R.init i s hs
  rw [hinit] at ht
  rw [ht]
  by_cases hp : i % 2 = 0
  · simp [hp]
  · simp [hp, flipSide]

/-- C6 witness: on a concrete two-ply run the position before ply 1 has
Black to move. -/
theorem c6_witness :
    demoReplay.turn demoReplay.init = Side.white ∧
    (analyseGame demoReplay ["x", "m"] esB).1 =
      .ok [⟨1, "x", 0, "+0.00"⟩, ⟨1, "m", 0, "+0.00"⟩] ∧
    (1 < (["x", "m"] : List String).length) ∧
    ∃ s, stateAt demoReplay ["x", "m"] 1 = some s ∧
      demoReplay.turn s = (if 1 % 2 = 0 then Side.white else Side.black) :=
  ⟨by decide, runB, by decide,
   c6_side_to_move_parity _ _ demoReplay ["x", "m"] esB
     [⟨1, "x", 0, "+0.00"⟩, ⟨1, "m", 0, "+0.00"⟩] 1
     (by decide) demoReplay_flip runB (by decide)⟩

/-- C7: every evaluation produced carries an evaluation in pawns equal to
its centipawn score divided by 100, and a display text that is the signed
two-decimal rendering of that value; in particular 123 renders as "+1.23",
-54 as "-0.54" and 0 as "+0.00". -/
theorem c7_score_pawns_display (σ M : Type) (R : Replay σ M) (ms : List M) (es : EngineState)
    (l : List MoveAnalysis) (hok : (analyseGame R ms es).1 = .ok l) :
    (∀ a ∈ l, ∃ cp : Int, a.Evaluation = (cp : ℚ) / 100 ∧ a.EvaluationText = fmtSigned2 cp) ∧
    fmtSigned2 123 = "+1.23" ∧ fmtSigned2 (-54) = "-0.54" ∧ fmtSigned2 0 = "+0.00" :=
  ⟨loop_fields R ms R.init 0 es l hok, by decide, by decide, by decide⟩

/-- C7 witness: the concrete run with score 10 satisfies the pawn/display
relation. -/
theorem c7_witness :
    (analyseGame demoReplay ["m"] esC1).1 = .ok [⟨1, "m", (10 : ℚ) / 100, "+0.10"⟩] ∧
    ((∀ a ∈ [(⟨1, "m", (10 : ℚ) / 100, "+0.10"⟩ : MoveAnalysis)], ∃ cp : Int,
        a.Evaluation = (cp : ℚ) / 100 ∧ a.EvaluationText = fmtSigned2 cp) ∧
      fmtSigned2 123 = "+1.23" ∧ fmtSigned2 (-54) = "-0.54" ∧ fmtSigned2 0 = "+0.00") :=
  ⟨runC1, c7_score_pawns_display _ _ demoReplay ["m"] esC1
    [⟨1, "m", (10 : ℚ) / 100, "+0.10"⟩] runC1⟩

/-- C8, counterexample: on a channel whose every write fails (both the
position-set and search writes return a write error), `AnalyseGame`
nevertheless succeeds, because it discards the results of `sendCommand`;
the in-flight call does not fail with a communication error. -/
theorem c8_counterexample :
    (sendCommand esW "position fen fen0").1 = .error "write error" ∧
    (sendCommand esW "go movetime 500").1 = .error "write error" ∧
    (analyseGame demoReplay ["m"] esW).1 = .ok [⟨1, "m", 0, "+0.00"⟩] :=
  ⟨by decide, by decide, runW⟩

/-- C8, amended: write errors are ignored by `AnalyseGame` — its result is
completely independent of whether writes succeed (it fails only when the
subsequent read fails) — while `NewStockfishAnalyser` does check its
handshake writes and fails on a write error. -/
theorem c8_writes_ignored_in_analyse :
    (∀ (σ M : Type) (R : Replay σ M) (ms : List M) (p s₁ s₂ : List String) (b₁ b₂ : Bool),
      (analyseGame R ms ⟨p, s₁, b₁⟩).1 = (analyseGame R ms ⟨p, s₂, b₂⟩).1) ∧
    (∀ lines : List String,
      (newStockfishAnalyser ⟨true, true, true, true, lines⟩).1 = .error "write error") := by
  constructor
  · intro σ M R ms p s₁ s₂ b₁ b₂
    exact (loop_writes_ignored R ms R.init 0 p s₁ s₂ b₁ b₂).1
  · intro lines
    rfl

/-- C9, counterexample: a setup in which the process starts and then the
handshake fails (stdout closes before "uciok") returns an error while the
trace contains the process start and *no* release action: the process and
its pipes are leaked by the failed initialization. -/
theorem c9_counterexample :
    (∃ e, (newStockfishAnalyser scFail).1 = .error e) ∧
    InitAction.start ∈ (newStockfishAnalyser scFail).2 ∧
    (newStockfishAnalyser scFail).2.filter isRelease = [] :=
  ⟨⟨"EOF", by decide⟩, by decide, by decide⟩

/-- C9, amended: `NewStockfishAnalyser` performs no release action on any
of its paths — error paths after the process has started leak it — and the
only release of the process and its two pipe endpoints is the separate
`Close` (wait on the process, close stdin, close stdout), which a failed
constructor never reaches. -/
theorem c9_init_never_releases (sc : InitScript) :
    (newStockfishAnalyser sc).2.filter isRelease = [] ∧
    closeActions.filter isRelease =
      [InitAction.wait, InitAction.closeStdin, InitAction.closeStdout] := by
  refine ⟨?_, by decide⟩
  unfold newStockfishAnalyser
  repeat' split
  all_goals rfl

/-- C10: a game whose parsed move list is empty yields an empty evaluation
sequence and no error, and the channel state is untouched: no position-set
or search command is sent. -/
theorem c10_empty_game (σ M : Type) (R : Replay σ M) (es : EngineState) :
    analyseGame R ([] : List M) es = (.ok [], es) := rfl

end ChessAnalyr
